import Mathlib

/-!
# The person identifiers of `sourcegraph/people.go`

A shallow embedding of `PersonSpec`, `Person`, `(*PersonSpec).PathComponent`,
`ParsePersonSpec`, `(*Person).ShortName`, `(*Person).Transient`,
`(*Person).HasProfile`, `PersonStatType.Value`, `(*PersonStatType).Scan` and
`(*peopleService).Get`, together with the parts of the Go standard library
(`strings.HasPrefix`, `strings.Index`, `strings.Contains`, `strconv.Itoa`,
`strconv.Atoi`, the verb `%v` of `fmt`) those functions call.

* A Go `string` is a sequence of bytes: `GoString := List (Fin 256)`.
* A Go `int` is a mathematical integer; the width of the type (32 or 64 bits,
  `strconv.IntSize`) is the parameter `Arch`, and conversions wrap explicitly.
* A function that may panic returns an `Outcome`.
* A Go `(value, error)` pair is a pair whose second component is an `Option`.
* A method with a pointer receiver takes the value pointed to and returns the
  new one.
* The client of `Get` is a structure of functions, and `Get` returns, next to
  its results, the list of the calls it made on the client.
-/

namespace Sourcegraph

/-! ## Go values -/

/-- One byte of a Go string. -/
abbrev Byte := Fin 256

/-- A Go `string`: an immutable sequence of bytes. -/
abbrev GoString := List Byte

/-- The bytes of a string literal whose characters are all ASCII, which is how
every literal of `people.go` is written. -/
def ascii (s : String) : GoString :=
  s.toList.map (fun c => Fin.ofNat c.toNat)

/-- The result of running a Go function that either returns or panics. -/
inductive Outcome (α : Type) where
  | returned (v : α)
  | panicked (msg : String)
  deriving DecidableEq

/-- Sequencing of two steps, the second of which runs only when the first
returned. -/
def Outcome.andThen {α β : Type} (x : Outcome α) (f : α → Outcome β) : Outcome β :=
  match x with
  | .returned v => f v
  | .panicked msg => .panicked msg

/-- The platform: Go's `int` is 32 bits wide on 32-bit targets and 64 bits wide
on 64-bit targets. -/
inductive Arch where
  | bits32
  | bits64
  deriving DecidableEq

/-- The constant `strconv.IntSize`: `32 << (^uint(0) >> 63)`. -/
def IntSize : Arch → Nat
  | .bits32 => 32
  | .bits64 => 64

/-- The conversion of an integer to the signed two's-complement type of `w`
bits (`int64(x)` for `w = 64`, `int(x)` for `w = IntSize`). -/
def wrapInt (w : Nat) (x : Int) : Int :=
  (x + 2 ^ (w - 1)) % 2 ^ w - 2 ^ (w - 1)

/-! ## Package `strings` -/

namespace strings

/-- Go's `strings.HasPrefix`:
`len(s) >= len(prefix) && s[0:len(prefix)] == prefix`. -/
def HasPrefix (s pre : GoString) : Bool :=
  decide (s.length ≥ pre.length) && decide (s.take pre.length = pre)

/-- The search loop of `strings.Index`: the first position at or after `i`
(the number of bytes already skipped) where `substr` occurs, or `-1`. -/
def indexFrom (substr : GoString) : GoString → Nat → Int
  | [], i => if substr = [] then (i : Int) else -1
  | c :: cs, i =>
    if substr.isPrefixOf (c :: cs) then (i : Int) else indexFrom substr cs (i + 1)

/-- Go's `strings.Index`: the index of the first instance of `substr` in `s`,
or `-1` if `substr` is not present in `s`. -/
def Index (s substr : GoString) : Int :=
  indexFrom substr s 0

/-- Go's `strings.Contains`: `Index(s, substr) >= 0`. -/
def Contains (s substr : GoString) : Bool :=
  decide (Index s substr ≥ 0)

end strings

/-! ## Package `strconv` -/

namespace strconv

/-- The `Err` field of a `*strconv.NumError`. -/
inductive ErrKind where
  | ErrSyntax
  | ErrRange
  deriving DecidableEq

/-- A `*strconv.NumError`: the text that failed to convert and why. (The field
`Func`, the name of the reporting function, carries no information here and is
left out.) -/
structure NumError where
  Num : GoString
  Err : ErrKind
  deriving DecidableEq

/-- The helper `syntaxError(fn, str)`. -/
def syntaxError (str : GoString) : NumError :=
  { Num := str, Err := .ErrSyntax }

/-- The helper `rangeError(fn, str)`. -/
def rangeError (str : GoString) : NumError :=
  { Num := str, Err := .ErrRange }

/-- The helper `lower(c)`: `c | ('x' - 'X')`. -/
def lower (c : Byte) : Nat :=
  c.val ||| 32

/-- The digit switch of `ParseUint`: the value of the byte `c` read as a digit
or a letter, `none` for the `default` case. -/
def digitVal (c : Byte) : Option Nat :=
  if 48 ≤ c.val ∧ c.val ≤ 57 then some (c.val - 48)
  else if 97 ≤ lower c ∧ lower c ≤ 122 then some (lower c - 97 + 10)
  else none

/-- The constant `maxUint64/10 + 1`, the smallest `n` with `n * 10`
overflowing `uint64`. -/
def cutoff10 : Nat :=
  (2 ^ 64 - 1) / 10 + 1

/-- The loop of `ParseUint` in base 10 over the bytes still to read, with the
`uint64` accumulator `n`; `s0` is the whole text, kept for error values. -/
def parseUintLoop (maxVal : Nat) (s0 : GoString) : GoString → Nat → Nat × Option NumError
  | [], n => (n, none)
  | c :: cs, n =>
    match digitVal c with
    | none => (0, some (syntaxError s0))
    | some d =>
      if d ≥ 10 then (0, some (syntaxError s0))
      else if n ≥ cutoff10 then (maxVal, some (rangeError s0))
      else
        let n10 := (n * 10) % 2 ^ 64
        let n1 := (n10 + d) % 2 ^ 64
        if n1 < n10 ∨ n1 > maxVal then (maxVal, some (rangeError s0))
        else parseUintLoop maxVal s0 cs n1

/-- Go's `strconv.ParseUint(s, 10, 0)`, the call `ParseInt(s, 10, 0)` makes:
base 10, and `bitSize = 0` standing for `IntSize`. -/
def ParseUint (a : Arch) (s : GoString) : Nat × Option NumError :=
  if s = [] then (0, some (syntaxError s))
  else parseUintLoop (2 ^ IntSize a - 1) s s 0

/-- Go's `strconv.ParseInt(s, 10, 0)`: an optional sign, then `ParseUint`,
then the range check against `1 << (bitSize-1)`. A range error comes with the
value of greatest magnitude of the right sign, a syntax error with `0`. -/
def ParseInt (a : Arch) (s : GoString) : Int × Option NumError :=
  match s with
  | [] => (0, some (syntaxError s))
  | c :: rest =>
    let neg : Bool := decide (c = 45)
    let s1 : GoString := if c = 43 ∨ c = 45 then rest else s
    let r := ParseUint a s1
    let notRange : Bool :=
      match r.2 with
      | some e => decide (e.Err ≠ .ErrRange)
      | none => false
    if notRange then (0, some (syntaxError s))
    else
      let un : Nat := r.1
      let cutoff : Nat := 2 ^ (IntSize a - 1)
      if neg = false ∧ un ≥ cutoff then (((cutoff - 1 : Nat) : Int), some (rangeError s))
      else if neg = true ∧ un > cutoff then (-(cutoff : Int), some (rangeError s))
      else
        let n : Int := wrapInt 64 un
        ((if neg then wrapInt 64 (-n) else n), none)

/-- Go's `strconv.Atoi`: "equivalent to `ParseInt(s, 10, 0)`, converted to
type `int`". -/
def Atoi (a : Arch) (s : GoString) : Int × Option NumError :=
  let r := ParseInt a s
  (wrapInt (IntSize a) r.1, r.2)

/-- The byte `'0' + d` of the digit `d`. -/
def digitByte (d : Nat) : Byte :=
  Fin.ofNat (d + 48)

/-- The base-10 loop of `formatBits`: the digits of `u` are written in front of
`acc`, last digit first. `fuel` bounds the number of digits written and stands
for the length of the `[64 + 1]byte` buffer. -/
def formatDigits : Nat → Nat → GoString → GoString
  | 0, _, acc => acc
  | fuel + 1, u, acc =>
    if u ≥ 10 then formatDigits fuel (u / 10) (digitByte (u % 10) :: acc)
    else digitByte u :: acc

/-- Go's `strconv.FormatInt(i, 10)`: the decimal representation of `i`, with a
leading `-` when `i` is negative. `u` is `uint64(i)`, negated when `i < 0`. -/
def FormatInt (i : Int) : GoString :=
  let u : Nat := i.natAbs % 2 ^ 64
  if i < 0 then (45 : Byte) :: formatDigits 65 u [] else formatDigits 65 u []

/-- Go's `strconv.Itoa`: "equivalent to `FormatInt(int64(i), 10)`". -/
def Itoa (i : Int) : GoString :=
  FormatInt (wrapInt 64 i)

end strconv

/-! ## `people.go` -/

/-- The struct `PersonSpec`: "At least one of Email, Login, and UID must be
nonempty." -/
structure PersonSpec where
  Email : GoString
  Login : GoString
  UID : Int
  deriving DecidableEq

/-- The struct `Person`, which embeds a `PersonSpec`. -/
structure Person extends PersonSpec where
  FullName : GoString
  AvatarURL : GoString
  deriving DecidableEq

/-- The method `(*PersonSpec).PathComponent`. -/
def PersonSpec.PathComponent (s : PersonSpec) : Outcome GoString :=
  if s.Email ≠ [] then .returned s.Email
  else if s.Login ≠ [] then .returned s.Login
  else if s.UID > 0 then .returned (ascii "$" ++ strconv.Itoa s.UID)
  else .panicked "empty PersonSpec"

/-- The method `(*PersonSpec).RouteVars`: the one-entry map
`{"PersonSpec": s.PathComponent()}`, as a list of key/value pairs. -/
def PersonSpec.RouteVars (s : PersonSpec) : Outcome (List (GoString × GoString)) :=
  s.PathComponent.andThen (fun pc => .returned [(ascii "PersonSpec", pc)])

/-- The function `ParsePersonSpec`. -/
def ParsePersonSpec (a : Arch) (pathComponent : GoString) : PersonSpec × Option strconv.NumError :=
  if strings.HasPrefix pathComponent (ascii "$") then
    let r := strconv.Atoi a (pathComponent.drop 1)
    ({ Email := [], Login := [], UID := r.1 }, r.2)
  else if strings.Contains pathComponent (ascii "@") then
    ({ Email := pathComponent, Login := [], UID := 0 }, none)
  else
    ({ Email := [], Login := pathComponent, UID := 0 }, none)

/-- The method `(*Person).ShortName`. -/
def Person.ShortName (p : Person) : GoString :=
  if p.Login ≠ [] then p.Login
  else
    let atIdx := strings.Index p.Email (ascii "@")
    if atIdx = -1 then ascii "(anonymous)"
    else p.Email.take atIdx.toNat

/-- The method `(*Person).Transient`. -/
def Person.Transient (p : Person) : Bool :=
  decide (p.UID = 0)

/-- The method `(*Person).HasProfile`. -/
def Person.HasProfile (p : Person) : Bool :=
  !p.Transient

/-- Encoding followed by decoding: `ParsePersonSpec(s.PathComponent())`, which
panics when the encoding does. -/
def roundTrip (a : Arch) (s : PersonSpec) : Outcome (PersonSpec × Option strconv.NumError) :=
  s.PathComponent.andThen (fun pc => .returned (ParsePersonSpec a pc))

/-- The decimal digits of a natural number as bytes, most significant first:
the specification `strconv.Itoa` is compared with. -/
def decimalDigits (n : Nat) : GoString :=
  (Nat.digits 10 n).reverse.map (fun d => Fin.ofNat (d + 48))

/-! ## The stat tags and their storage codec -/

/-- The type `PersonStatType`, a named `string` type. -/
abbrev PersonStatType := GoString

/-- The constant `PersonStatAuthors`. -/
def PersonStatAuthors : GoString := ascii "authors"

/-- The constant `PersonStatClients`. -/
def PersonStatClients : GoString := ascii "clients"

/-- The constant `PersonStatOwnedRepos`. -/
def PersonStatOwnedRepos : GoString := ascii "owned-repos"

/-- The constant `PersonStatContributedToRepos`. -/
def PersonStatContributedToRepos : GoString := ascii "contributed-to-repos"

/-- The constant `PersonStatDependencies`. -/
def PersonStatDependencies : GoString := ascii "dependencies"

/-- The constant `PersonStatDependents`. -/
def PersonStatDependents : GoString := ascii "dependents"

/-- The constant `PersonStatDefs`. -/
def PersonStatDefs : GoString := ascii "defs"

/-- The constant `PersonStatExportedDefs`. -/
def PersonStatExportedDefs : GoString := ascii "exported-defs"

namespace driver

/-- A value held in an `interface{}` handed to `Scan`, or a `driver.Value`:
`nil`, an `int64`, a `bool`, a `[]byte`, a `string`, or a value of any other
dynamic type (`float64`, `time.Time`, ...), which is given by the name of its
type and by the text the verb `%v` prints for it. -/
inductive Value where
  | nil
  | int64 (i : Int)
  | bool (b : Bool)
  | bytes (data : GoString)
  | string (s : GoString)
  | other (typeName : GoString) (text : GoString)
  deriving DecidableEq

/-- The name of the dynamic type of a value, as the verb `%T` prints it. -/
def Value.typeName : Value → GoString
  | .nil => ascii "<nil>"
  | .int64 _ => ascii "int64"
  | .bool _ => ascii "bool"
  | .bytes _ => ascii "[]uint8"
  | .string _ => ascii "string"
  | .other t _ => t

end driver

namespace fmt

/-- The text the verb `%v` prints for a value that is not a byte slice: `<nil>`
for nil, the decimal digits of an integer, `true` or `false`, the bytes of a
string. (A byte slice is printed as a bracketed list of numbers; `Scan` never
formats one.) -/
def formatV : driver.Value → GoString
  | .nil => ascii "<nil>"
  | .int64 i => strconv.FormatInt i
  | .bool b => if b then ascii "true" else ascii "false"
  | .bytes data =>
    ascii "[" ++ ((data.map (fun c => strconv.FormatInt (c.val : Nat))).intersperse
      (ascii " ")).flatten ++ ascii "]"
  | .string s => s
  | .other _ text => text

end fmt

/-- The method `PersonStatType.Value`: `string(x), nil`. -/
def PersonStatType.Value (x : PersonStatType) : driver.Value × Option GoString :=
  (.string x, none)

/-- The method `(*PersonStatType).Scan`, on the value `x` the receiver points
to: the new value of the receiver and the error. The error of `fmt.Errorf` is
given by its message, `%T` of the receiver being `*sourcegraph.PersonStatType`. -/
def PersonStatType.Scan (x : PersonStatType) (v : driver.Value) :
    PersonStatType × Option GoString :=
  match v with
  | .bytes data => (data, none)
  | _ => (x, some (ascii "*sourcegraph.PersonStatType" ++ ascii ".Scan failed: " ++ fmt.formatV v))

/-! ## The lookup -/

/-- The methods of `*Client` that `Get` calls, over abstract types of URLs,
requests, responses and errors. Each returns its Go results as a tuple whose
last component is the error, `none` for nil. `Do` returns as its first
component what it decoded into the `*Person` it was handed, `none` for nil. -/
structure Client (U Req Resp Err : Type) where
  URL : GoString → List (GoString × GoString) → U × Option Err
  String : U → GoString
  NewRequest : GoString → GoString → Req × Option Err
  Do : Req → Option Person × Option Resp × Option Err

/-- One call `Get` made on its client, with the arguments of the call. -/
inductive ClientCall (Req : Type) where
  | URL (route : GoString) (vars : List (GoString × GoString))
  | NewRequest (method : GoString) (urlStr : GoString)
  | Do (req : Req)
  deriving DecidableEq

/-- What `Get` returns, `(*Person, Response, error)`, and the calls it made on
the client, in order. -/
structure GetResult (Req Resp Err : Type) where
  person : Option Person
  resp : Option Resp
  err : Option Err
  calls : List (ClientCall Req)

/-- The method `(*peopleService).Get`, over the client `c` of the service and
the route name `routerPerson` (the constant `router.Person`). The argument
`spec.RouteVars()` is evaluated before `URL` is called, so a panic of
`PathComponent` comes before any call on the client. -/
def peopleService.Get {U Req Resp Err : Type} (c : Client U Req Resp Err)
    (routerPerson : GoString) (spec : PersonSpec) : Outcome (GetResult Req Resp Err) :=
  spec.RouteVars.andThen (fun vars =>
    let u := c.URL routerPerson vars
    match u.2 with
    | some e =>
      .returned { person := none, resp := none, err := some e,
                  calls := [.URL routerPerson vars] }
    | none =>
      let r := c.NewRequest (ascii "GET") (c.String u.1)
      match r.2 with
      | some e =>
        .returned { person := none, resp := none, err := some e,
                    calls := [.URL routerPerson vars,
                              .NewRequest (ascii "GET") (c.String u.1)] }
      | none =>
        let d := c.Do r.1
        match d.2.2 with
        | some e =>
          .returned { person := none, resp := d.2.1, err := some e,
                      calls := [.URL routerPerson vars,
                                .NewRequest (ascii "GET") (c.String u.1), .Do r.1] }
        | none =>
          .returned { person := d.1, resp := d.2.1, err := none,
                      calls := [.URL routerPerson vars,
                                .NewRequest (ascii "GET") (c.String u.1), .Do r.1] })

/-- A client whose three steps succeed: the URL of a route is `/people/`
followed by the values of the route variables, the request is the method and
the URL, and `Do` answers 200 with one fixed person. It serves as a concrete
input of `Get`. -/
def exampleClient : Client GoString GoString Nat GoString where
  URL := fun _ vars => (ascii "/people/" ++ (vars.map (fun kv => kv.2)).flatten, none)
  String := fun u => u
  NewRequest := fun method urlStr => (method ++ ascii " " ++ urlStr, none)
  Do := fun _ =>
    (some { Email := [], Login := ascii "alice", UID := 7,
            FullName := ascii "Alice", AvatarURL := [] }, some 200, none)

/-! ## Facts about the string helpers -/

theorem ascii_dollar : ascii "$" = [(36 : Byte)] := by decide

theorem ascii_at : ascii "@" = [(64 : Byte)] := by decide

theorem hasPrefix_single (s : GoString) (c : Byte) :
    strings.HasPrefix s [c] = true ↔ s.head? = some c := by
  cases s with
  | nil => simp [strings.HasPrefix]
  | cons x xs => simp [strings.HasPrefix]

theorem indexFrom_single_not_mem (c : Byte) (s : GoString) (i : Nat) (h : c ∉ s) :
    strings.indexFrom [c] s i = -1 := by
  induction s generalizing i with
  | nil => simp [strings.indexFrom]
  | cons x xs ih =>
    simp only [List.mem_cons, not_or] at h
    simp [strings.indexFrom, List.isPrefixOf, h.1, ih (i + 1) h.2]

theorem indexFrom_single_split (c : Byte) (pre post : GoString) (i : Nat) (h : c ∉ pre) :
    strings.indexFrom [c] (pre ++ c :: post) i = ((i + pre.length : Nat) : Int) := by
  induction pre generalizing i with
  | nil => simp [strings.indexFrom, List.isPrefixOf]
  | cons x xs ih =>
    simp only [List.mem_cons, not_or] at h
    have e := ih (i + 1) h.2
    simp [strings.indexFrom, List.isPrefixOf, h.1, e]
    omega

theorem mem_split_first (c : Byte) (s : GoString) (h : c ∈ s) :
    ∃ pre post, s = pre ++ c :: post ∧ c ∉ pre := by
  induction s with
  | nil => simp at h
  | cons x xs ih =>
    by_cases hx : c = x
    · exact ⟨[], xs, by simp [hx], by simp⟩
    · have hm : c ∈ xs := by
        rcases List.mem_cons.mp h with e | e
        · exact absurd e hx
        · exact e
      obtain ⟨pre, post, e, hn⟩ := ih hm
      refine ⟨x :: pre, post, by simp [e], ?_⟩
      simp [hx, hn]

theorem contains_single (s : GoString) (c : Byte) :
    strings.Contains s [c] = true ↔ c ∈ s := by
  unfold strings.Contains strings.Index
  constructor
  · intro h
    by_contra hn
    rw [indexFrom_single_not_mem c s 0 hn] at h
    simp at h
  · intro h
    obtain ⟨pre, post, e, hn⟩ := mem_split_first c s h
    rw [e, indexFrom_single_split c pre post 0 hn]
    simp

theorem contains_single_false (s : GoString) (c : Byte) :
    strings.Contains s [c] = false ↔ c ∉ s := by
  rw [← contains_single]
  simp

/-! ## Facts about the decimal conversions -/

theorem digitByte_val (d : Nat) (h : d < 10) : (strconv.digitByte d).val = d + 48 := by
  show (d + 48) % 256 = d + 48
  omega

theorem digitVal_digitByte (d : Nat) (h : d < 10) :
    strconv.digitVal (strconv.digitByte d) = some d := by
  have hv := digitByte_val d h
  unfold strconv.digitVal
  have hc : 48 ≤ (strconv.digitByte d).val ∧ (strconv.digitByte d).val ≤ 57 := by omega
  rw [if_pos hc, hv]
  simp

theorem decimalDigits_zero : decimalDigits 0 = [] := by
  simp [decimalDigits]

theorem decimalDigits_step (n : Nat) (h : 0 < n) :
    decimalDigits n = decimalDigits (n / 10) ++ [strconv.digitByte (n % 10)] := by
  unfold decimalDigits
  rw [Nat.digits_def' (by norm_num) h]
  simp [strconv.digitByte]

theorem decimalDigits_ne_nil (n : Nat) (h : 0 < n) : decimalDigits n ≠ [] := by
  rw [decimalDigits_step n h]
  simp

theorem decimalDigits_mem (n : Nat) (c : Byte) (h : c ∈ decimalDigits n) :
    48 ≤ c.val ∧ c.val ≤ 57 := by
  unfold decimalDigits at h
  simp only [List.mem_map, List.mem_reverse] at h
  obtain ⟨d, hd, e⟩ := h
  have hlt : d < 10 := Nat.digits_lt_base (by norm_num) hd
  have hv := digitByte_val d hlt
  have e2 : c = strconv.digitByte d := e.symm
  rw [e2, hv]
  omega

theorem formatDigits_eq (fuel : Nat) :
    ∀ (u : Nat) (acc : GoString), 0 < u → u < 10 ^ fuel →
      strconv.formatDigits fuel u acc = decimalDigits u ++ acc := by
  induction fuel with
  | zero =>
    intro u acc h0 h1
    simp at h1
    omega
  | succ k ih =>
    intro u acc h0 h1
    unfold strconv.formatDigits
    by_cases hu : u ≥ 10
    · rw [if_pos hu]
      have hq0 : 0 < u / 10 := by omega
      have hq1 : u / 10 < 10 ^ k := by
        rw [pow_succ] at h1
        omega
      rw [ih (u / 10) _ hq0 hq1, decimalDigits_step u h0]
      simp
    · rw [if_neg hu]
      have hq : u / 10 = 0 := by omega
      have hm : u % 10 = u := by omega
      rw [decimalDigits_step u h0, hq, hm, decimalDigits_zero]
      simp

theorem wrapInt_id (a : Arch) (x : Int)
    (h0 : -(2 : Int) ^ (IntSize a - 1) ≤ x) (h1 : x < (2 : Int) ^ (IntSize a - 1)) :
    wrapInt (IntSize a) x = x := by
  cases a <;> simp only [IntSize, wrapInt] at * <;> norm_num at * <;> omega

theorem wrapInt64_id (x : Int) (h0 : -(2 : Int) ^ 63 ≤ x) (h1 : x < (2 : Int) ^ 63) :
    wrapInt 64 x = x :=
  wrapInt_id .bits64 x h0 h1

theorem pow_intSize_le (a : Arch) : (2 : Int) ^ (IntSize a - 1) ≤ (2 : Int) ^ 63 := by
  cases a <;> simp [IntSize]

theorem itoa_pos (n : Int) (h0 : 0 < n) (h1 : n < (2 : Int) ^ 63) :
    strconv.Itoa n = decimalDigits n.toNat := by
  unfold strconv.Itoa
  rw [wrapInt64_id n (by norm_num at *; omega) h1]
  unfold strconv.FormatInt
  have hneg : ¬ n < 0 := by omega
  have hu : n.natAbs % 2 ^ 64 = n.toNat := by
    norm_num at *
    omega
  simp only [hu, if_neg hneg]
  have hlt : n.toNat < 10 ^ 65 := by
    norm_num at *
    omega
  rw [formatDigits_eq 65 n.toNat [] (by omega) hlt]
  simp

theorem parseUintLoop_step (maxVal : Nat) (s0 ys : GoString) (q d : Nat)
    (hmax : maxVal < 2 ^ 64) (hd : d < 10) (hle : q * 10 + d ≤ maxVal) :
    strconv.parseUintLoop maxVal s0 (strconv.digitByte d :: ys) q
      = strconv.parseUintLoop maxVal s0 ys (q * 10 + d) := by
  rw [strconv.parseUintLoop, digitVal_digitByte d hd]
  have h1 : ¬ d ≥ 10 := by omega
  have h2 : ¬ q ≥ strconv.cutoff10 := by
    unfold strconv.cutoff10
    norm_num at *
    omega
  have h3 : (q * 10) % 2 ^ 64 = q * 10 := by
    norm_num at *
    omega
  have h4 : (q * 10 + d) % 2 ^ 64 = q * 10 + d := by
    norm_num at *
    omega
  have h5 : ¬ (q * 10 + d < q * 10 ∨ q * 10 + d > maxVal) := by omega
  simp only [h1, h2, h3, h4, h5, if_false]

theorem parseUintLoop_decimal (maxVal : Nat) (s0 : GoString) (hmax : maxVal < 2 ^ 64) :
    ∀ (n : Nat) (ys : GoString), n ≤ maxVal →
      strconv.parseUintLoop maxVal s0 (decimalDigits n ++ ys) 0
        = strconv.parseUintLoop maxVal s0 ys n := by
  intro n
  induction n using Nat.strong_induction_on with
  | _ n ih =>
    intro ys hle
    by_cases h0 : n = 0
    · subst h0
      simp [decimalDigits_zero]
    · have hpos : 0 < n := Nat.pos_of_ne_zero h0
      have hq : n / 10 < n := by omega
      have hd : n % 10 < 10 := by omega
      have hsum : n / 10 * 10 + n % 10 = n := by omega
      rw [decimalDigits_step n hpos, List.append_assoc, List.singleton_append,
        ih (n / 10) hq _ (by omega),
        parseUintLoop_step maxVal s0 ys (n / 10) (n % 10) hmax hd (by omega), hsum]

theorem maxVal_lt (a : Arch) : 2 ^ IntSize a - 1 < 2 ^ 64 := by
  cases a <;> simp [IntSize]

theorem parseUint_decimal (a : Arch) (n : Nat) (h0 : 0 < n) (h1 : n ≤ 2 ^ IntSize a - 1) :
    strconv.ParseUint a (decimalDigits n) = (n, none) := by
  unfold strconv.ParseUint
  rw [if_neg (decimalDigits_ne_nil n h0)]
  have h := parseUintLoop_decimal (2 ^ IntSize a - 1) (decimalDigits n) (maxVal_lt a) n [] h1
  rw [List.append_nil] at h
  rw [h]
  rfl

theorem parseInt_decimal (a : Arch) (n : Nat) (h0 : 0 < n) (h1 : n < 2 ^ (IntSize a - 1)) :
    strconv.ParseInt a (decimalDigits n) = ((n : Int), none) := by
  have hle : n ≤ 2 ^ IntSize a - 1 := by
    cases a <;> simp only [IntSize] at * <;> norm_num at * <;> omega
  have hu := parseUint_decimal a n h0 hle
  have h63 : (n : Int) < (2 : Int) ^ 63 := by
    have := pow_intSize_le a
    have h1z : (n : Int) < (2 : Int) ^ (IntSize a - 1) := by exact_mod_cast h1
    omega
  cases hs : decimalDigits n with
  | nil => exact absurd hs (decimalDigits_ne_nil n h0)
  | cons c rest =>
    have hc := decimalDigits_mem n c (by rw [hs]; simp)
    have hsign : ¬ (c = 43 ∨ c = 45) := by
      rintro (e | e) <;> · subst e; exact absurd hc (by decide)
    have hneg : ¬ c = 45 := fun e => hsign (Or.inr e)
    rw [hs] at hu
    unfold strconv.ParseInt
    simp only [if_neg hsign, hu, decide_eq_false hneg]
    have hlt : ¬ n ≥ 2 ^ (IntSize a - 1) := by omega
    have hw : wrapInt 64 (n : Int) = (n : Int) :=
      wrapInt64_id n (by norm_num; omega) h63
    simp [hlt, hw]

theorem atoi_decimal (a : Arch) (n : Nat) (h0 : 0 < n) (h1 : n < 2 ^ (IntSize a - 1)) :
    strconv.Atoi a (decimalDigits n) = ((n : Int), none) := by
  unfold strconv.Atoi
  rw [parseInt_decimal a n h0 h1]
  have h1z : (n : Int) < (2 : Int) ^ (IntSize a - 1) := by exact_mod_cast h1
  have hpos : (0 : Int) < (2 : Int) ^ (IntSize a - 1) := by positivity
  simp only
  rw [wrapInt_id a n (by omega) h1z]

/-! ## Facts about `ParsePersonSpec` and `PathComponent` -/

theorem hasPrefix_dollar_cons (rest : GoString) :
    strings.HasPrefix ((36 : Byte) :: rest) (ascii "$") = true := by
  rw [ascii_dollar, hasPrefix_single]
  rfl

theorem hasPrefix_dollar_false (text : GoString) (h : text.head? ≠ some (36 : Byte)) :
    strings.HasPrefix text (ascii "$") = false := by
  rw [ascii_dollar]
  cases hp : strings.HasPrefix text [(36 : Byte)] with
  | false => rfl
  | true => exact absurd ((hasPrefix_single text 36).mp hp) h

theorem parse_dollar (a : Arch) (rest : GoString) :
    ParsePersonSpec a ((36 : Byte) :: rest)
      = ({ Email := [], Login := [], UID := (strconv.Atoi a rest).1 }, (strconv.Atoi a rest).2) := by
  unfold ParsePersonSpec
  rw [if_pos (hasPrefix_dollar_cons rest)]
  rfl

theorem parse_email (a : Arch) (text : GoString) (h1 : text.head? ≠ some (36 : Byte))
    (h2 : (64 : Byte) ∈ text) :
    ParsePersonSpec a text = ({ Email := text, Login := [], UID := 0 }, none) := by
  unfold ParsePersonSpec
  have hc : strings.Contains text (ascii "@") = true := by
    rw [ascii_at]
    exact (contains_single text 64).mpr h2
  simp [hasPrefix_dollar_false text h1, hc]

theorem parse_login (a : Arch) (text : GoString) (h1 : text.head? ≠ some (36 : Byte))
    (h2 : (64 : Byte) ∉ text) :
    ParsePersonSpec a text = ({ Email := [], Login := text, UID := 0 }, none) := by
  unfold ParsePersonSpec
  have hc : strings.Contains text (ascii "@") = false := by
    rw [ascii_at]
    exact (contains_single_false text 64).mpr h2
  simp [hasPrefix_dollar_false text h1, hc]

theorem pathComponent_uid (s : PersonSpec) (he : s.Email = []) (hl : s.Login = [])
    (h0 : 0 < s.UID) (h1 : s.UID < (2 : Int) ^ 63) :
    s.PathComponent = .returned ((36 : Byte) :: decimalDigits s.UID.toNat) := by
  unfold PersonSpec.PathComponent
  simp [he, hl, h0, ascii_dollar, itoa_pos s.UID h0 h1]

theorem uid_lt_63 (a : Arch) (n : Int) (h : n < (2 : Int) ^ (IntSize a - 1)) :
    n < (2 : Int) ^ 63 :=
  lt_of_lt_of_le h (pow_intSize_le a)

theorem atoi_itoa (a : Arch) (n : Int) (h0 : 0 < n) (h1 : n < (2 : Int) ^ (IntSize a - 1)) :
    strconv.Atoi a (decimalDigits n.toNat) = (n, none) := by
  have hn : ((n.toNat : Nat) : Int) = n := Int.toNat_of_nonneg (le_of_lt h0)
  have hlt : n.toNat < 2 ^ (IntSize a - 1) := by
    have : ((n.toNat : Nat) : Int) < ((2 ^ (IntSize a - 1) : Nat) : Int) := by
      rw [hn]
      exact_mod_cast h1
    exact_mod_cast this
  have h := atoi_decimal a n.toNat (by omega) hlt
  rw [hn] at h
  exact h

/-! ## The round trip through a path component -/

/-- C1 as stated does not hold. Each of these specs has exactly one field set
(and no email without `@`), yet encoding then decoding does not give the spec
back: a login containing `@` comes back as an email; a login or an email that
starts with `$` is decoded as a uid and rejected; a negative uid cannot be
encoded at all, `PathComponent` panics. -/
theorem roundTrip_single_field_counterexample :
    roundTrip .bits64 { Email := [], Login := ascii "a@b", UID := 0 }
        = .returned ({ Email := ascii "a@b", Login := [], UID := 0 }, none)
      ∧ roundTrip .bits64 { Email := [], Login := ascii "a@b", UID := 0 }
        ≠ .returned ({ Email := [], Login := ascii "a@b", UID := 0 }, none)
      ∧ roundTrip .bits64 { Email := [], Login := ascii "$bob", UID := 0 }
        = .returned ({ Email := [], Login := [], UID := 0 },
            some { Num := ascii "bob", Err := .ErrSyntax })
      ∧ (64 : Byte) ∈ ascii "$a@b.com"
      ∧ roundTrip .bits64 { Email := ascii "$a@b.com", Login := [], UID := 0 }
        = .returned ({ Email := [], Login := [], UID := 0 },
            some { Num := ascii "a@b.com", Err := .ErrSyntax })
      ∧ roundTrip .bits64 { Email := [], Login := [], UID := -1 }
        = .panicked "empty PersonSpec" := by
  decide

/-- C1, amended: for every PersonSpec with exactly one field set, where a set
Email is non-empty, contains `@` and does not start with `$`, a set Login is
non-empty, contains no `@` and does not start with `$`, and a set UID is
positive and fits the integer type, `ParsePersonSpec(PathComponent(spec))`
returns no error and a PersonSpec equal to spec. -/
theorem roundTrip_single_field (a : Arch) (s : PersonSpec)
    (h : (s.Email ≠ [] ∧ s.Login = [] ∧ s.UID = 0
            ∧ (64 : Byte) ∈ s.Email ∧ s.Email.head? ≠ some (36 : Byte))
        ∨ (s.Email = [] ∧ s.Login ≠ [] ∧ s.UID = 0
            ∧ (64 : Byte) ∉ s.Login ∧ s.Login.head? ≠ some (36 : Byte))
        ∨ (s.Email = [] ∧ s.Login = [] ∧ 0 < s.UID ∧ s.UID < (2 : Int) ^ (IntSize a - 1))) :
    roundTrip a s = .returned (s, none) := by
  obtain ⟨email, login, uid⟩ := s
  rcases h with ⟨he, hl, hu, hat, hd⟩ | ⟨he, hl, hu, hat, hd⟩ | ⟨he, hl, h0, h1⟩
  · simp only at he hl hu hat hd
    subst hl hu
    simp [roundTrip, PersonSpec.PathComponent, Outcome.andThen, he, parse_email a email hd hat]
  · simp only at he hl hu hat hd
    subst he hu
    simp [roundTrip, PersonSpec.PathComponent, Outcome.andThen, hl, parse_login a login hd hat]
  · simp only at he hl h0 h1
    subst he hl
    have hp := pathComponent_uid { Email := [], Login := [], UID := uid } rfl rfl h0
      (uid_lt_63 a uid h1)
    simp only [roundTrip, hp, Outcome.andThen, parse_dollar, atoi_itoa a uid h0 h1]

/-- An instance of `roundTrip_single_field`: the email `a@b.com`. -/
theorem roundTrip_single_field_witness :
    roundTrip .bits64 { Email := ascii "a@b.com", Login := [], UID := 0 }
      = .returned ({ Email := ascii "a@b.com", Login := [], UID := 0 }, none) :=
  roundTrip_single_field .bits64 { Email := ascii "a@b.com", Login := [], UID := 0 }
    (Or.inl (by decide))

/-- C2: for every uid `n > 0` that fits the integer type, `PathComponent` of
`{UID: n}` is `$` followed by the decimal digits of `n`, and `ParsePersonSpec`
of that text returns `{UID: n}`, Email and Login empty, with no error. -/
theorem uid_roundTrip (a : Arch) (n : Int) (h0 : 0 < n)
    (h1 : n < (2 : Int) ^ (IntSize a - 1)) :
    PersonSpec.PathComponent { Email := [], Login := [], UID := n }
        = .returned ((36 : Byte) :: decimalDigits n.toNat)
      ∧ ParsePersonSpec a ((36 : Byte) :: decimalDigits n.toNat)
        = ({ Email := [], Login := [], UID := n }, none) := by
  constructor
  · exact pathComponent_uid { Email := [], Login := [], UID := n } rfl rfl h0 (uid_lt_63 a n h1)
  · rw [parse_dollar, atoi_itoa a n h0 h1]

/-- An instance of `uid_roundTrip`: the uid 42 on a 64-bit platform. -/
theorem uid_roundTrip_witness :
    ((0 : Int) < 42 ∧ (42 : Int) < (2 : Int) ^ (IntSize .bits64 - 1))
      ∧ PersonSpec.PathComponent { Email := [], Login := [], UID := 42 }
        = .returned ((36 : Byte) :: decimalDigits (42 : Int).toNat)
      ∧ ParsePersonSpec .bits64 ((36 : Byte) :: decimalDigits (42 : Int).toNat)
        = ({ Email := [], Login := [], UID := 42 }, none) :=
  ⟨by decide, uid_roundTrip .bits64 42 (by decide) (by decide)⟩

/-! ## `PathComponent` -/

/-- C3: `PathComponent` returns Email when Email is non-empty; otherwise Login
when Login is non-empty; otherwise, when UID is positive (UID being a value of
an integer type of at most 64 bits), `$` followed by the decimal digits of UID.
The fields that lose have no influence: two specs with the same non-empty Email
encode alike, and so do two specs without Email and with the same non-empty
Login. -/
theorem pathComponent_priority (s : PersonSpec) :
    (s.Email ≠ [] → s.PathComponent = .returned s.Email)
      ∧ (s.Email = [] → s.Login ≠ [] → s.PathComponent = .returned s.Login)
      ∧ (s.Email = [] → s.Login = [] → 0 < s.UID → s.UID < (2 : Int) ^ 63 →
          s.PathComponent = .returned ((36 : Byte) :: decimalDigits s.UID.toNat))
      ∧ (∀ t : PersonSpec, s.Email ≠ [] → t.Email = s.Email →
          t.PathComponent = s.PathComponent)
      ∧ (∀ t : PersonSpec, s.Email = [] → t.Email = [] → s.Login ≠ [] → t.Login = s.Login →
          t.PathComponent = s.PathComponent) := by
  refine ⟨?_, ?_, ?_, ?_, ?_⟩
  · intro he
    simp [PersonSpec.PathComponent, he]
  · intro he hl
    simp [PersonSpec.PathComponent, he, hl]
  · intro he hl h0 h1
    exact pathComponent_uid s he hl h0 h1
  · intro t he ht
    simp [PersonSpec.PathComponent, he, ht]
  · intro t he hte hl htl
    simp [PersonSpec.PathComponent, he, hte, hl, htl]

/-- An instance of `pathComponent_priority`: with all three fields set the
email is the encoding, and with login and uid set the login is. -/
theorem pathComponent_priority_witness :
    PersonSpec.PathComponent { Email := ascii "a@b.com", Login := ascii "alice", UID := 42 }
        = .returned (ascii "a@b.com")
      ∧ PersonSpec.PathComponent { Email := [], Login := ascii "alice", UID := 42 }
        = .returned (ascii "alice") :=
  ⟨(pathComponent_priority
      { Email := ascii "a@b.com", Login := ascii "alice", UID := 42 }).1 (by decide),
    (pathComponent_priority
      { Email := [], Login := ascii "alice", UID := 42 }).2.1 rfl (by decide)⟩

/-- C4: for the PersonSpec with empty Email, empty Login and UID 0,
`PathComponent` panics with "empty PersonSpec" and returns no string. -/
theorem pathComponent_empty_panics :
    PersonSpec.PathComponent { Email := [], Login := [], UID := 0 }
      = .panicked "empty PersonSpec" := by
  decide

/-- C5 as stated does not hold: the spec whose only set field is the non-zero
UID `-1` satisfies "at least one of Email non-empty, Login non-empty, UID
non-zero", and `PathComponent` panics on it, and so does `RouteVars`. -/
theorem pathComponent_nonzero_uid_counterexample :
    ((-1 : Int) ≠ 0)
      ∧ PersonSpec.PathComponent { Email := [], Login := [], UID := -1 }
        = .panicked "empty PersonSpec"
      ∧ PersonSpec.RouteVars { Email := [], Login := [], UID := -1 }
        = .panicked "empty PersonSpec" := by
  decide

/-- C5, amended: for every PersonSpec with at least one of Email non-empty,
Login non-empty, UID positive, `PathComponent` returns a string and never
panics, and `RouteVars` returns the map holding that string. -/
theorem pathComponent_returns (s : PersonSpec)
    (h : s.Email ≠ [] ∨ s.Login ≠ [] ∨ 0 < s.UID) :
    (∃ pc : GoString, s.PathComponent = .returned pc
        ∧ s.RouteVars = .returned [(ascii "PersonSpec", pc)])
      ∧ ∀ msg : String, s.PathComponent ≠ .panicked msg := by
  have key : ∃ pc : GoString, s.PathComponent = .returned pc := by
    unfold PersonSpec.PathComponent
    by_cases he : s.Email = []
    · by_cases hl : s.Login = []
      · have hu : 0 < s.UID := by
          rcases h with h | h | h
          · exact absurd he h
          · exact absurd hl h
          · exact h
        exact ⟨ascii "$" ++ strconv.Itoa s.UID, by simp [he, hl, hu]⟩
      · exact ⟨s.Login, by simp [he, hl]⟩
    · exact ⟨s.Email, by simp [he]⟩
  obtain ⟨pc, hpc⟩ := key
  refine ⟨⟨pc, hpc, ?_⟩, ?_⟩
  · simp [PersonSpec.RouteVars, hpc, Outcome.andThen]
  · intro msg hm
    rw [hpc] at hm
    cases hm

/-- An instance of `pathComponent_returns`: the spec with login `alice`. -/
theorem pathComponent_returns_witness :
    (∃ pc : GoString,
        PersonSpec.PathComponent { Email := [], Login := ascii "alice", UID := 0 } = .returned pc
        ∧ PersonSpec.RouteVars { Email := [], Login := ascii "alice", UID := 0 }
          = .returned [(ascii "PersonSpec", pc)])
      ∧ ∀ msg : String,
        PersonSpec.PathComponent { Email := [], Login := ascii "alice", UID := 0 }
          ≠ .panicked msg :=
  pathComponent_returns { Email := [], Login := ascii "alice", UID := 0 }
    (Or.inr (Or.inl (by decide)))

/-! ## Rejected uid texts -/

theorem parseUintLoop_digits_error (maxVal : Nat) (s0 : GoString) :
    ∀ (cs : GoString) (n : Nat) (e : strconv.NumError),
      (∀ c ∈ cs, 48 ≤ c.val ∧ c.val ≤ 57) →
      (strconv.parseUintLoop maxVal s0 cs n).2 = some e → e.Err = .ErrRange := by
  intro cs
  induction cs with
  | nil =>
    intro n e _ h
    simp [strconv.parseUintLoop] at h
  | cons c cs ih =>
    intro n e hd h
    have hc := hd c (by simp)
    have hv : strconv.digitVal c = some (c.val - 48) := by
      unfold strconv.digitVal
      rw [if_pos hc]
    have h10 : ¬ c.val - 48 ≥ 10 := by omega
    rw [strconv.parseUintLoop, hv] at h
    simp only [if_neg h10] at h
    split_ifs at h with h1 h2
    · simp only [Option.some.injEq] at h
      rw [← h]
      rfl
    · simp only [Option.some.injEq] at h
      rw [← h]
      rfl
    · exact ih _ e (fun x hx => hd x (by simp [hx])) h

theorem parseInt_error_cases (a : Arch) (s : GoString) (e : strconv.NumError)
    (h : (strconv.ParseInt a s).2 = some e) :
    (e = strconv.syntaxError s ∧ (strconv.ParseInt a s).1 = 0)
      ∨ (e = strconv.rangeError s ∧ s.head? ≠ some (45 : Byte)
          ∧ (strconv.ParseInt a s).1 = (2 : Int) ^ (IntSize a - 1) - 1)
      ∨ (e = strconv.rangeError s ∧ s.head? = some (45 : Byte)
          ∧ (strconv.ParseInt a s).1 = -(2 : Int) ^ (IntSize a - 1)) := by
  cases s with
  | nil =>
    simp only [strconv.ParseInt, Option.some.injEq] at h
    left
    exact ⟨h.symm, rfl⟩
  | cons c rest =>
    have hpos : 1 ≤ 2 ^ (IntSize a - 1) := Nat.one_le_two_pow
    simp only [strconv.ParseInt] at h ⊢
    generalize strconv.ParseUint a (if c = 43 ∨ c = 45 then rest else c :: rest) = r at h ⊢
    split_ifs at h ⊢ with h1 h2 h3
    · left
      simp only [Option.some.injEq] at h
      exact ⟨h.symm, rfl⟩
    · right
      left
      simp only [Option.some.injEq] at h
      have hc : ¬ c = 45 := by simpa using h2.1
      refine ⟨h.symm, by simpa using hc, ?_⟩
      push_cast [Nat.cast_sub hpos]
      rfl
    · right
      right
      simp only [Option.some.injEq] at h
      have hc : c = 45 := by simpa using h3.1
      refine ⟨h.symm, by simp [hc], ?_⟩
      push_cast
      rfl

theorem parseInt_digits_error (a : Arch) (s : GoString) (e : strconv.NumError)
    (hne : s ≠ []) (hd : ∀ c ∈ s, 48 ≤ c.val ∧ c.val ≤ 57)
    (h : (strconv.ParseInt a s).2 = some e) : e.Err = .ErrRange := by
  cases s with
  | nil => exact absurd rfl hne
  | cons c rest =>
    have hc := hd c (by simp)
    have hsign : ¬ (c = 43 ∨ c = 45) := by
      rintro (e | e) <;> · subst e; exact absurd hc (by decide)
    have hu : ∀ e2, (strconv.ParseUint a (c :: rest)).2 = some e2 → e2.Err = .ErrRange := by
      intro e2 h2
      unfold strconv.ParseUint at h2
      rw [if_neg (by simp)] at h2
      exact parseUintLoop_digits_error _ _ _ _ e2 hd h2
    simp only [strconv.ParseInt, if_neg hsign] at h
    generalize strconv.ParseUint a (c :: rest) = r at h hu
    obtain ⟨v, err⟩ := r
    cases err with
    | none =>
      simp only at h
      split_ifs at h <;> first
        | contradiction
        | (simp only [Option.some.injEq] at h; rw [← h]; rfl)
    | some e2 =>
      have h2 := hu e2 rfl
      simp only [h2] at h
      split_ifs at h <;> first
        | contradiction
        | (simp only [Option.some.injEq] at h; rw [← h]; rfl)

theorem wrapInt_zero (a : Arch) : wrapInt (IntSize a) 0 = 0 := by
  cases a <;> simp [IntSize, wrapInt]

theorem wrapInt_max (a : Arch) :
    wrapInt (IntSize a) ((2 : Int) ^ (IntSize a - 1) - 1) = (2 : Int) ^ (IntSize a - 1) - 1 := by
  cases a <;> simp [IntSize, wrapInt]

theorem wrapInt_min (a : Arch) :
    wrapInt (IntSize a) (-(2 : Int) ^ (IntSize a - 1)) = -(2 : Int) ^ (IntSize a - 1) := by
  cases a <;> simp [IntSize, wrapInt]

theorem atoi_error_cases (a : Arch) (s : GoString) (e : strconv.NumError)
    (h : (strconv.Atoi a s).2 = some e) :
    (e = strconv.syntaxError s ∧ (strconv.Atoi a s).1 = 0)
      ∨ (e = strconv.rangeError s ∧ s.head? ≠ some (45 : Byte)
          ∧ (strconv.Atoi a s).1 = (2 : Int) ^ (IntSize a - 1) - 1)
      ∨ (e = strconv.rangeError s ∧ s.head? = some (45 : Byte)
          ∧ (strconv.Atoi a s).1 = -(2 : Int) ^ (IntSize a - 1)) := by
  have hp : (strconv.ParseInt a s).2 = some e := h
  have hv : (strconv.Atoi a s).1 = wrapInt (IntSize a) (strconv.ParseInt a s).1 := rfl
  rcases parseInt_error_cases a s e hp with ⟨h1, h2⟩ | ⟨h1, h2, h3⟩ | ⟨h1, h2, h3⟩
  · left
    exact ⟨h1, by rw [hv, h2, wrapInt_zero]⟩
  · right
    left
    exact ⟨h1, h2, by rw [hv, h3, wrapInt_max]⟩
  · right
    right
    exact ⟨h1, h2, by rw [hv, h3, wrapInt_min]⟩

/-! ## `ParsePersonSpec` -/

/-- C6 as stated does not hold: the text `$9223372036854775808` begins with
`$` and its remainder, a digit string one past the largest 64-bit integer, is
rejected by the decimal parser; `ParsePersonSpec` returns the error together
with `PersonSpec{UID: 9223372036854775807}`, which is not the zero value. The
same happens on a 32-bit platform with `$2147483648`. -/
theorem parse_out_of_range_counterexample :
    (strconv.Atoi .bits64 (ascii "9223372036854775808")).2 ≠ none
      ∧ ParsePersonSpec .bits64 (ascii "$9223372036854775808")
        = ({ Email := [], Login := [], UID := 9223372036854775807 },
            some { Num := ascii "9223372036854775808", Err := .ErrRange })
      ∧ (ParsePersonSpec .bits64 (ascii "$9223372036854775808")).1
        ≠ { Email := [], Login := [], UID := 0 }
      ∧ ParsePersonSpec .bits32 (ascii "$2147483648")
        = ({ Email := [], Login := [], UID := 2147483647 },
            some { Num := ascii "2147483648", Err := .ErrRange }) := by
  decide

/-- C6, amended: for every text that begins with `$` and whose remainder is
rejected by the decimal integer parser, `ParsePersonSpec` returns that non-nil
error together with a PersonSpec whose Email and Login are empty. Its UID is 0
when the error is a syntax error, which is the error for an empty remainder;
when the error is a range error, which is the error for every rejected
remainder made of digits only, its UID is the largest value of the integer
type, or the smallest one when the remainder starts with `-`. -/
theorem parse_rejected_uid (a : Arch) (rest : GoString) (e : strconv.NumError)
    (h : (strconv.Atoi a rest).2 = some e) :
    (ParsePersonSpec a ((36 : Byte) :: rest)).2 = some e
      ∧ (ParsePersonSpec a ((36 : Byte) :: rest)).1.Email = []
      ∧ (ParsePersonSpec a ((36 : Byte) :: rest)).1.Login = []
      ∧ e.Num = rest
      ∧ (e.Err = .ErrSyntax →
          (ParsePersonSpec a ((36 : Byte) :: rest)).1 = { Email := [], Login := [], UID := 0 })
      ∧ (e.Err = .ErrRange → rest.head? ≠ some (45 : Byte) →
          (ParsePersonSpec a ((36 : Byte) :: rest)).1.UID = (2 : Int) ^ (IntSize a - 1) - 1)
      ∧ (e.Err = .ErrRange → rest.head? = some (45 : Byte) →
          (ParsePersonSpec a ((36 : Byte) :: rest)).1.UID = -(2 : Int) ^ (IntSize a - 1))
      ∧ (rest = [] → e.Err = .ErrSyntax)
      ∧ (rest ≠ [] → (∀ c ∈ rest, 48 ≤ c.val ∧ c.val ≤ 57) → e.Err = .ErrRange) := by
  rw [parse_dollar]
  refine ⟨h, rfl, rfl, ?_, ?_, ?_, ?_, ?_, ?_⟩
  · rcases atoi_error_cases a rest e h with ⟨h1, _⟩ | ⟨h1, _, _⟩ | ⟨h1, _, _⟩ <;>
      · rw [h1]
        rfl
  · intro hs
    rcases atoi_error_cases a rest e h with ⟨_, h2⟩ | ⟨h1, _, _⟩ | ⟨h1, _, _⟩
    · simp only [h2]
    · rw [h1] at hs
      cases hs
    · rw [h1] at hs
      cases hs
  · intro hr hh
    rcases atoi_error_cases a rest e h with ⟨h1, _⟩ | ⟨_, _, h3⟩ | ⟨_, h2, _⟩
    · rw [h1] at hr
      cases hr
    · exact h3
    · exact absurd h2 hh
  · intro hr hh
    rcases atoi_error_cases a rest e h with ⟨h1, _⟩ | ⟨_, h2, _⟩ | ⟨_, _, h3⟩
    · rw [h1] at hr
      cases hr
    · exact absurd hh h2
    · exact h3
  · intro hnil
    subst hnil
    have h2 : some (strconv.syntaxError []) = some e := h
    simp only [Option.some.injEq] at h2
    rw [← h2]
    rfl
  · intro hne hd
    exact parseInt_digits_error a rest e hne hd h

/-- An instance of `parse_rejected_uid`: the text `$notanumber`. -/
theorem parse_rejected_uid_witness :
    (ParsePersonSpec .bits64 (ascii "$notanumber")).2
        = some { Num := ascii "notanumber", Err := .ErrSyntax }
      ∧ (ParsePersonSpec .bits64 (ascii "$notanumber")).1
        = { Email := [], Login := [], UID := 0 } :=
  have h := parse_rejected_uid .bits64 (ascii "notanumber")
    { Num := ascii "notanumber", Err := .ErrSyntax } (by decide)
  ⟨h.1, h.2.2.2.2.1 rfl⟩

/-- C7: for every text made of `$` and a remainder that the decimal integer
parser accepts with value `n`, `ParsePersonSpec` returns no error and the spec
`PersonSpec{UID: n}`, Email and Login empty. -/
theorem parse_accepted_uid (a : Arch) (rest : GoString) (n : Int)
    (h : strconv.Atoi a rest = (n, none)) :
    ParsePersonSpec a (ascii "$" ++ rest) = ({ Email := [], Login := [], UID := n }, none) := by
  rw [ascii_dollar, List.singleton_append, parse_dollar, h]

/-- An instance of `parse_accepted_uid`: the text `$42`. -/
theorem parse_accepted_uid_witness :
    ParsePersonSpec .bits64 (ascii "$" ++ ascii "42")
      = ({ Email := [], Login := [], UID := 42 }, none) :=
  parse_accepted_uid .bits64 (ascii "42") 42 (by decide)

/-- C8: for every text that does not start with `$`, `ParsePersonSpec` returns
no error; when the text contains `@` the result is `PersonSpec{Email: text}`
with Login empty and UID 0, and otherwise it is `PersonSpec{Login: text}` with
Email empty and UID 0. The whole text is stored unchanged. -/
theorem parse_text (a : Arch) (text : GoString) (h : text.head? ≠ some (36 : Byte)) :
    (ParsePersonSpec a text).2 = none
      ∧ ((64 : Byte) ∈ text →
          (ParsePersonSpec a text).1 = { Email := text, Login := [], UID := 0 })
      ∧ ((64 : Byte) ∉ text →
          (ParsePersonSpec a text).1 = { Email := [], Login := text, UID := 0 }) := by
  refine ⟨?_, ?_, ?_⟩
  · by_cases hat : (64 : Byte) ∈ text
    · rw [parse_email a text h hat]
    · rw [parse_login a text h hat]
  · intro hat
    rw [parse_email a text h hat]
  · intro hat
    rw [parse_login a text h hat]

/-- An instance of `parse_text`: the text `alice`. -/
theorem parse_text_witness :
    (ParsePersonSpec .bits64 (ascii "alice")).2 = none
      ∧ (ParsePersonSpec .bits64 (ascii "alice")).1
        = { Email := [], Login := ascii "alice", UID := 0 } :=
  have h := parse_text .bits64 (ascii "alice") (by decide)
  ⟨h.1, h.2.2 (by decide)⟩

/-! ## `Person` -/

/-- C9: `ShortName` of a person is Login when Login is non-empty; otherwise,
when Email contains `@`, the part of Email strictly before the first `@`;
otherwise the literal `(anonymous)`. UID, FullName and AvatarURL do not affect
the result: two persons with the same Login and Email have the same
ShortName. -/
theorem shortName_spec (p : Person) :
    (p.Login ≠ [] → p.ShortName = p.Login)
      ∧ (p.Login = [] → ∀ pre post : GoString,
          p.Email = pre ++ (64 : Byte) :: post → (64 : Byte) ∉ pre → p.ShortName = pre)
      ∧ (p.Login = [] → (64 : Byte) ∈ p.Email → ∃ pre post : GoString,
          p.Email = pre ++ (64 : Byte) :: post ∧ (64 : Byte) ∉ pre ∧ p.ShortName = pre)
      ∧ (p.Login = [] → (64 : Byte) ∉ p.Email → p.ShortName = ascii "(anonymous)")
      ∧ (∀ q : Person, q.Login = p.Login → q.Email = p.Email →
          q.ShortName = p.ShortName) := by
  have split : p.Login = [] → ∀ pre post : GoString,
      p.Email = pre ++ (64 : Byte) :: post → (64 : Byte) ∉ pre → p.ShortName = pre := by
    intro hl pre post he hn
    have hi : strings.Index p.Email (ascii "@") = ((pre.length : Nat) : Int) := by
      rw [ascii_at, he]
      unfold strings.Index
      rw [indexFrom_single_split 64 pre post 0 hn]
      simp
    have hne : ¬ ((pre.length : Nat) : Int) = -1 := by omega
    simp only [Person.ShortName, hl, hi, ne_eq, not_true_eq_false, if_false, if_neg hne]
    rw [he]
    simp
  refine ⟨?_, split, ?_, ?_, ?_⟩
  · intro hl
    simp [Person.ShortName, hl]
  · intro hl hm
    obtain ⟨pre, post, he, hn⟩ := mem_split_first 64 p.Email hm
    exact ⟨pre, post, he, hn, split hl pre post he hn⟩
  · intro hl hn
    have hi : strings.Index p.Email (ascii "@") = -1 := by
      rw [ascii_at]
      exact indexFrom_single_not_mem 64 p.Email 0 hn
    simp [Person.ShortName, hl, hi]
  · intro q hl he
    simp [Person.ShortName, hl, he]

/-- An instance of `shortName_spec`: the short name of the person with email
`x@y.com` and no login is `x`. -/
theorem shortName_spec_witness :
    Person.ShortName
        { Email := ascii "x@y.com", Login := [], UID := 0, FullName := [], AvatarURL := [] }
      = ascii "x" :=
  (shortName_spec
      { Email := ascii "x@y.com", Login := [], UID := 0, FullName := [], AvatarURL := [] }).2.1
    rfl (ascii "x") (ascii "y.com") (by decide) (by decide)

/-- C10: `Transient` of a person is true if and only if its UID is 0, and
`HasProfile` is the negation of `Transient`; neither depends on Email, Login,
FullName or AvatarURL: two persons with the same UID agree on both. -/
theorem transient_hasProfile_spec (p : Person) :
    (p.Transient = true ↔ p.UID = 0)
      ∧ p.HasProfile = !p.Transient
      ∧ (∀ q : Person, q.UID = p.UID →
          q.Transient = p.Transient ∧ q.HasProfile = p.HasProfile) := by
  refine ⟨?_, rfl, ?_⟩
  · simp [Person.Transient]
  · intro q hq
    simp [Person.HasProfile, Person.Transient, hq]

/-- An instance of `transient_hasProfile_spec`: a person with UID 7 is not
transient and has a profile. -/
theorem transient_hasProfile_spec_witness :
    Person.Transient
        { Email := [], Login := ascii "bob", UID := 7, FullName := [], AvatarURL := [] } = false
      ∧ Person.HasProfile
        { Email := [], Login := ascii "bob", UID := 7, FullName := [], AvatarURL := [] } = true := by
  have h := transient_hasProfile_spec
    { Email := [], Login := ascii "bob", UID := 7, FullName := [], AvatarURL := [] }
  have ht : Person.Transient
      { Email := [], Login := ascii "bob", UID := 7, FullName := [], AvatarURL := [] } = false := by
    cases hb : Person.Transient
      { Email := [], Login := ascii "bob", UID := 7, FullName := [], AvatarURL := [] } with
    | false => rfl
    | true => exact absurd (h.1.mp hb) (by decide)
  exact ⟨ht, by rw [h.2.1, ht]; rfl⟩



/-! ## The stat-tag codec -/

/-- C11 as stated does not hold: `Value` of the tag `authors` returns the
string `authors` with no error, and `Scan` applied to that returned value fails,
because the value is a `string` and not a `[]byte`; the receiver keeps the value
it had. -/
theorem scan_value_counterexample :
    PersonStatType.Value PersonStatAuthors = (.string (ascii "authors"), none)
      ∧ PersonStatType.Scan [] (PersonStatType.Value PersonStatAuthors).1
        = ([], some (ascii "*sourcegraph.PersonStatType.Scan failed: authors"))
      ∧ PersonStatType.Scan [] (PersonStatType.Value PersonStatAuthors).1
        ≠ (PersonStatAuthors, none) := by
  decide

/-- C11, amended: for every PersonStatType `x`, `Value(x)` returns the scalar
string value of `x` with no error, and `Scan` applied to the bytes of that
string succeeds and sets the receiver to `x`, whatever the receiver held. -/
theorem scan_bytes_of_value (x r : PersonStatType) :
    PersonStatType.Value x = (.string x, none)
      ∧ (∀ s : GoString, (PersonStatType.Value x).1 = .string s →
          PersonStatType.Scan r (.bytes s) = (x, none)) := by
  refine ⟨rfl, ?_⟩
  intro s hs
  have e : x = s := by
    simpa [PersonStatType.Value] using hs
  subst e
  rfl

/-- An instance of `scan_bytes_of_value`: the tag `dependents`, scanned into a
receiver that held `authors`. -/
theorem scan_bytes_of_value_witness :
    PersonStatType.Scan PersonStatAuthors (.bytes (ascii "dependents"))
      = (PersonStatDependents, none) :=
  (scan_bytes_of_value PersonStatDependents PersonStatAuthors).2 (ascii "dependents")
    (by decide)

/-- C12 as stated does not hold: the `int64` 7 and the `string` "7" are values
of different types that `Scan` rejects with one and the same message,
`*sourcegraph.PersonStatType.Scan failed: 7`, so the message does not identify
the type of the value received. -/
theorem scan_error_type_counterexample :
    PersonStatType.Scan [] (.int64 7)
        = ([], some (ascii "*sourcegraph.PersonStatType.Scan failed: 7"))
      ∧ PersonStatType.Scan [] (.string (ascii "7"))
        = ([], some (ascii "*sourcegraph.PersonStatType.Scan failed: 7"))
      ∧ driver.Value.typeName (.int64 7) = ascii "int64"
      ∧ driver.Value.typeName (.string (ascii "7")) = ascii "string"
      ∧ driver.Value.typeName (.int64 7) ≠ driver.Value.typeName (.string (ascii "7")) := by
  decide

/-- C12, amended: for every storage scalar `v` that is not a byte sequence,
`Scan` returns an error and leaves the receiver as it was; the message of the
error is the type of the receiver, `*sourcegraph.PersonStatType`, followed by
`.Scan failed: ` and by the value `v` as the verb `%v` prints it. -/
theorem scan_rejects (x : PersonStatType) (v : driver.Value)
    (h : ∀ data : GoString, v ≠ .bytes data) :
    PersonStatType.Scan x v
      = (x, some (ascii "*sourcegraph.PersonStatType.Scan failed: " ++ fmt.formatV v)) := by
  have e : ascii "*sourcegraph.PersonStatType" ++ ascii ".Scan failed: "
      = ascii "*sourcegraph.PersonStatType.Scan failed: " := by decide
  cases v with
  | bytes data => exact absurd rfl (h data)
  | nil => simp only [PersonStatType.Scan, e]
  | int64 i => simp only [PersonStatType.Scan, e]
  | bool b => simp only [PersonStatType.Scan, e]
  | string s => simp only [PersonStatType.Scan, e]
  | other t text => simp only [PersonStatType.Scan, e]

/-- An instance of `scan_rejects`: the boolean `true`. -/
theorem scan_rejects_witness :
    PersonStatType.Scan PersonStatDefs (.bool true)
      = (PersonStatDefs,
          some (ascii "*sourcegraph.PersonStatType.Scan failed: " ++ fmt.formatV (.bool true))) :=
  scan_rejects PersonStatDefs (.bool true) (fun _ hc => by cases hc)

/-- C15: for every byte sequence `b`, one of the eight stat tags or not,
`Scan(b)` returns no error and sets the receiver to the string with exactly the
bytes of `b`; so, for every `x`, `Value(x)` returns a string with no error and
`Scan` applied to the bytes of that string restores `x`. -/
theorem scan_bytes (b : GoString) (r : PersonStatType) :
    PersonStatType.Scan r (.bytes b) = (b, none)
      ∧ (∀ x : PersonStatType, ∃ s : GoString,
          PersonStatType.Value x = (.string s, none)
            ∧ PersonStatType.Scan r (.bytes s) = (x, none)) :=
  ⟨rfl, fun x => ⟨x, rfl, rfl⟩⟩

/-- An instance of `scan_bytes`: bytes that spell no tag are stored as they
are, and the tag `owned-repos` comes back from the bytes of its `Value`. -/
theorem scan_bytes_witness :
    PersonStatType.Scan PersonStatDefs (.bytes (ascii "no such tag"))
        = (ascii "no such tag", none)
      ∧ (∃ s : GoString,
          PersonStatType.Value PersonStatOwnedRepos = (.string s, none)
            ∧ PersonStatType.Scan PersonStatDefs (.bytes s) = (PersonStatOwnedRepos, none)) :=
  ⟨(scan_bytes (ascii "no such tag") PersonStatDefs).1,
    (scan_bytes (ascii "no such tag") PersonStatDefs).2 PersonStatOwnedRepos⟩

/-! ## `Get` -/

/-- C13: `Get` over an abstract client, for a valid spec (one `PathComponent`
returns on). If building the route fails, `Get` returns that error with a nil
Person and has called nothing but `URL`; if building the request fails, it
returns that error with a nil Person and has not called `Do`; if `Do` fails, it
returns that error with a nil Person; if all three succeed, it returns the
Person `Do` decoded, the response of `Do` and a nil error. In the last two cases
the calls made are one `URL` with `RouteVars(spec)`, one `NewRequest` of method
GET on the text of that URL, and one `Do` of that request. -/
theorem get_spec {U Req Resp Err : Type} (c : Client U Req Resp Err) (routerPerson : GoString)
    (spec : PersonSpec) (pc : GoString) (hv : spec.PathComponent = .returned pc) :
    spec.RouteVars = .returned [(ascii "PersonSpec", pc)]
      ∧ (∀ (u : U) (e : Err),
          c.URL routerPerson [(ascii "PersonSpec", pc)] = (u, some e) →
          peopleService.Get c routerPerson spec
            = .returned { person := none, resp := none, err := some e,
                          calls := [.URL routerPerson [(ascii "PersonSpec", pc)]] })
      ∧ (∀ (u : U) (req : Req) (e : Err),
          c.URL routerPerson [(ascii "PersonSpec", pc)] = (u, none) →
          c.NewRequest (ascii "GET") (c.String u) = (req, some e) →
          peopleService.Get c routerPerson spec
            = .returned { person := none, resp := none, err := some e,
                          calls := [.URL routerPerson [(ascii "PersonSpec", pc)],
                                    .NewRequest (ascii "GET") (c.String u)] })
      ∧ (∀ (u : U) (req : Req) (p : Option Person) (resp : Option Resp) (e : Err),
          c.URL routerPerson [(ascii "PersonSpec", pc)] = (u, none) →
          c.NewRequest (ascii "GET") (c.String u) = (req, none) →
          c.Do req = (p, resp, some e) →
          peopleService.Get c routerPerson spec
            = .returned { person := none, resp := resp, err := some e,
                          calls := [.URL routerPerson [(ascii "PersonSpec", pc)],
                                    .NewRequest (ascii "GET") (c.String u), .Do req] })
      ∧ (∀ (u : U) (req : Req) (p : Option Person) (resp : Option Resp),
          c.URL routerPerson [(ascii "PersonSpec", pc)] = (u, none) →
          c.NewRequest (ascii "GET") (c.String u) = (req, none) →
          c.Do req = (p, resp, none) →
          peopleService.Get c routerPerson spec
            = .returned { person := p, resp := resp, err := none,
                          calls := [.URL routerPerson [(ascii "PersonSpec", pc)],
                                    .NewRequest (ascii "GET") (c.String u), .Do req] }) := by
  have hr : spec.RouteVars = .returned [(ascii "PersonSpec", pc)] := by
    simp [PersonSpec.RouteVars, hv, Outcome.andThen]
  refine ⟨hr, ?_, ?_, ?_, ?_⟩
  · intro u e h1
    simp only [peopleService.Get, hr, Outcome.andThen, h1]
  · intro u req e h1 h2
    simp only [peopleService.Get, hr, Outcome.andThen, h1, h2]
  · intro u req p resp e h1 h2 h3
    simp only [peopleService.Get, hr, Outcome.andThen, h1, h2, h3]
  · intro u req p resp h1 h2 h3
    simp only [peopleService.Get, hr, Outcome.andThen, h1, h2, h3]

/-- An instance of `get_spec`: the lookup of the login `alice` through
`exampleClient`, whose three steps all succeed. -/
theorem get_spec_witness :
    peopleService.Get exampleClient (ascii "person")
        { Email := [], Login := ascii "alice", UID := 0 }
      = .returned
          { person := some { Email := [], Login := ascii "alice", UID := 7,
                             FullName := ascii "Alice", AvatarURL := [] },
            resp := some 200, err := none,
            calls := [.URL (ascii "person") [(ascii "PersonSpec", ascii "alice")],
                      .NewRequest (ascii "GET") (ascii "/people/alice"),
                      .Do (ascii "GET /people/alice")] } :=
  (get_spec exampleClient (ascii "person") { Email := [], Login := ascii "alice", UID := 0 }
      (ascii "alice") (by decide)).2.2.2.2
    (ascii "/people/alice") (ascii "GET /people/alice")
    (some { Email := [], Login := ascii "alice", UID := 7,
            FullName := ascii "Alice", AvatarURL := [] })
    (some 200) (by decide) (by decide) (by decide)

/-! ## What `ParsePersonSpec` returns -/

theorem parse_cons_dollar_or_text (text : GoString) :
    (∃ rest : GoString, text = (36 : Byte) :: rest) ∨ text.head? ≠ some (36 : Byte) := by
  cases text with
  | nil => right; simp
  | cons c rest =>
    by_cases hc : c = 36
    · left
      exact ⟨rest, by rw [hc]⟩
    · right
      simpa using hc

/-- C14, at the inputs where the code breaks it: for the empty text, and for
the text `$0`, `ParsePersonSpec` returns a nil error together with a PersonSpec
that has no field set (Email empty, Login empty, UID 0), against the invariant
of the type, "At least one of Email, Login, and UID must be nonempty";
`PathComponent` panics on that spec. -/
theorem parse_nil_error_unset_spec :
    ParsePersonSpec .bits64 [] = ({ Email := [], Login := [], UID := 0 }, none)
      ∧ ParsePersonSpec .bits64 (ascii "$0") = ({ Email := [], Login := [], UID := 0 }, none)
      ∧ ParsePersonSpec .bits32 [] = ({ Email := [], Login := [], UID := 0 }, none)
      ∧ ParsePersonSpec .bits32 (ascii "$0") = ({ Email := [], Login := [], UID := 0 }, none)
      ∧ (ParsePersonSpec .bits64 []).1.PathComponent = .panicked "empty PersonSpec"
      ∧ (ParsePersonSpec .bits64 (ascii "$0")).1.PathComponent
        = .panicked "empty PersonSpec" := by
  decide

/-- The texts on which a spec returned with a nil error has a field set: all
but the empty text and `$` followed by a remainder that the integer parser
accepts with value 0. -/
theorem parse_nil_error_set_iff (a : Arch) (text : GoString)
    (h : (ParsePersonSpec a text).2 = none) :
    ((ParsePersonSpec a text).1.Email ≠ [] ∨ (ParsePersonSpec a text).1.Login ≠ []
        ∨ (ParsePersonSpec a text).1.UID ≠ 0)
      ↔ (text ≠ [] ∧ ¬ (text.head? = some (36 : Byte)
            ∧ strconv.Atoi a (text.drop 1) = (0, none))) := by
  rcases parse_cons_dollar_or_text text with ⟨rest, hr⟩ | hd
  · subst hr
    rw [parse_dollar] at h ⊢
    simp only [List.drop_succ_cons, List.drop_zero, List.head?_cons, true_and]
    simp only at h
    constructor
    · intro hs
      refine ⟨by simp, ?_⟩
      intro hz
      rw [hz] at hs
      simp at hs
    · intro hs
      right
      right
      intro hz
      apply hs.2
      exact Prod.ext hz h
  · by_cases hat : (64 : Byte) ∈ text
    · rw [parse_email a text hd hat]
      have hne : text ≠ [] := by
        intro e
        rw [e] at hat
        simp at hat
      simp [hne, hd]
    · rw [parse_login a text hd hat]
      simp [hd]

/-- C16: for every text `t` that is non-empty and does not start with `$`,
encoding and decoding `{Email: t}` gives `{Email: t}` and a nil error if and
only if `t` contains `@`, and encoding and decoding `{Login: t}` gives
`{Login: t}` and a nil error if and only if `t` contains no `@`. -/
theorem text_roundTrip_iff (a : Arch) (t : GoString) (hne : t ≠ [])
    (hd : t.head? ≠ some (36 : Byte)) :
    (roundTrip a { Email := t, Login := [], UID := 0 }
          = .returned ({ Email := t, Login := [], UID := 0 }, none)
        ↔ (64 : Byte) ∈ t)
      ∧ (roundTrip a { Email := [], Login := t, UID := 0 }
          = .returned ({ Email := [], Login := t, UID := 0 }, none)
        ↔ (64 : Byte) ∉ t) := by
  have he : roundTrip a { Email := t, Login := [], UID := 0 } = .returned (ParsePersonSpec a t) := by
    simp [roundTrip, PersonSpec.PathComponent, Outcome.andThen, hne]
  have hl : roundTrip a { Email := [], Login := t, UID := 0 } = .returned (ParsePersonSpec a t) := by
    simp [roundTrip, PersonSpec.PathComponent, Outcome.andThen, hne]
  rw [he, hl]
  by_cases hat : (64 : Byte) ∈ t
  · rw [parse_email a t hd hat]
    simp [hat, hne]
  · rw [parse_login a t hd hat]
    simp [hat, hne]

/-- An instance of `text_roundTrip_iff`: the text `a@b` comes back as an email
and not as a login. -/
theorem text_roundTrip_iff_witness :
    roundTrip .bits64 { Email := ascii "a@b", Login := [], UID := 0 }
        = .returned ({ Email := ascii "a@b", Login := [], UID := 0 }, none)
      ∧ roundTrip .bits64 { Email := [], Login := ascii "a@b", UID := 0 }
        ≠ .returned ({ Email := [], Login := ascii "a@b", UID := 0 }, none) :=
  have h := text_roundTrip_iff .bits64 (ascii "a@b") (by decide) (by decide)
  ⟨h.1.mpr (by decide), fun e => absurd (h.2.mp e) (by decide)⟩

/-- C17: for every non-empty text that does not start with `$`,
`ParsePersonSpec(text)` returns a nil error and `PathComponent` of the returned
spec returns, without panicking, exactly `text`. -/
theorem parse_then_pathComponent (a : Arch) (text : GoString) (hne : text ≠ [])
    (hd : text.head? ≠ some (36 : Byte)) :
    (ParsePersonSpec a text).2 = none
      ∧ (ParsePersonSpec a text).1.PathComponent = .returned text := by
  by_cases hat : (64 : Byte) ∈ text
  · rw [parse_email a text hd hat]
    simp [PersonSpec.PathComponent, hne]
  · rw [parse_login a text hd hat]
    simp [PersonSpec.PathComponent, hne]

/-- An instance of `parse_then_pathComponent`: the text `alice`. -/
theorem parse_then_pathComponent_witness :
    (ParsePersonSpec .bits64 (ascii "alice")).2 = none
      ∧ (ParsePersonSpec .bits64 (ascii "alice")).1.PathComponent = .returned (ascii "alice") :=
  parse_then_pathComponent .bits64 (ascii "alice") (by decide) (by decide)

/-- C18: for every text, with or without an error, the PersonSpec that
`ParsePersonSpec` returns has at most one of Email, Login, UID set
(non-empty/non-zero): no two of them are set together. -/
theorem parse_at_most_one (a : Arch) (text : GoString) :
    ¬ ((ParsePersonSpec a text).1.Email ≠ [] ∧ (ParsePersonSpec a text).1.Login ≠ [])
      ∧ ¬ ((ParsePersonSpec a text).1.Email ≠ [] ∧ (ParsePersonSpec a text).1.UID ≠ 0)
      ∧ ¬ ((ParsePersonSpec a text).1.Login ≠ [] ∧ (ParsePersonSpec a text).1.UID ≠ 0) := by
  rcases parse_cons_dollar_or_text text with ⟨rest, hr⟩ | hd
  · subst hr
    rw [parse_dollar]
    simp
  · by_cases hat : (64 : Byte) ∈ text
    · rw [parse_email a text hd hat]
      simp
    · rw [parse_login a text hd hat]
      simp

end Sourcegraph
